import Mathlib

/-!
Verification of promistreamus (promistreamus.js): an adapter that turns a
push-based Node stream into a pull-based iterator of value promises, with two
combinators, `select` (map/filter) and `flatten` (concatenation of a stream of
sub-iterators).

The JavaScript source is embedded shallowly:

* JavaScript values that matter to the adapter are the inductive `JSVal`;
  the in-band "no item" marker of the code is the value `undefined`
  (`JSVal.undef`), and a Node object-mode stream signals end-of-stream with
  `null` (`JSVal.nullV`), which is therefore never itself buffered as an item.
* The closure state of one adapter (`error`, `stream`, `isDone`,
  `readablePromise`) is the structure `AdapterState`; the single current
  `Deferred` is modelled by its settlement state `SigState`.
* The synchronous drain loop `readStream` (promistreamus.js lines 75-90) and
  the pull operation `iterator` (lines 92-110) become the functions
  `readStream` / `nextSeq`; the recursive retry at line 108 is bounded by an
  explicit fuel argument (the `NextResult.spin` outcome marks fuel exhaustion
  and never arises in the states the theorems speak about).
* `select` (lines 144-158) and `flatten` (lines 165-192) are modelled over
  list-backed inner iterators, sequentially; the two concurrency claims get
  dedicated small-step machines (`ConcStep`, `FStep`) whose atomic steps are
  exactly the synchronous (non-awaiting) blocks of the source.
-/

set_option maxRecDepth 8192

namespace Promistreamus

/-- JavaScript values relevant to the adapter.  `undef` is JavaScript
`undefined`, the code's in-band "no item" marker; `nullV` is `null`, which a
Node object-mode stream reserves as its end-of-stream signal (`push(null)`),
so `read()` returns `null` exactly when nothing is buffered. -/
inductive JSVal where
  | undef
  | nullV
  | num (n : Int)
  | str (s : String)
  | boolV (b : Bool)
deriving DecidableEq

/-- Errors stored in the closure variable `error`: a source 'error' event
(carrying some payload, abstracted to a numeric code) or bluebird's
`Promise.CancellationError` installed by `iterator.cancel` (line 119). -/
inductive JSErr where
  | cancellation
  | srcError (code : Nat)
deriving DecidableEq

/-- Settlement state of the current `Deferred` (`readablePromise`): the
promise is pending, resolved (with `true`, lines 43/48) or rejected with an
error (line 52). -/
inductive SigState where
  | pending
  | resolved
  | rejected (e : JSErr)
deriving DecidableEq

/-- The `while ((value = stream.read()) !== null)` loop of `readStream`
(lines 83-88).  The stream's buffer is a list of buffered items; `read()`
pops the oldest item and returns `null` when the buffer is empty (the `[]`
case is the loop exit at line 83, reaching `return undefined` at line 89).
A buffered `null` never occurs in a real stream (pushing `null` is the end
signal); the explicit `nullV` branch transcribes the loop test literally.
Line 84 applies `selectorFunc` when present; lines 85-86 skip items whose
(transformed) value is `undefined`; line 87 returns the first kept value. -/
def drainLoop (selectorFunc : Option (JSVal → JSVal)) : List JSVal → JSVal × List JSVal
  | [] => (JSVal.undef, [])
  | v :: rest =>
    if v = JSVal.nullV then (JSVal.undef, v :: rest)
    else
      let res := match selectorFunc with
        | some f => f v
        | none => v
      if res = JSVal.undef then drainLoop selectorFunc rest
      else (res, rest)

/-- `readStream` (lines 75-90): throw the sticky error if set (lines 76-78);
return `undefined` when no stream is attached yet (lines 79-80); otherwise run
the drain loop.  The result carries the updated stream buffer. -/
def readStream (selectorFunc : Option (JSVal → JSVal)) (error : Option JSErr)
    (stream : Option (List JSVal)) : Except JSErr (JSVal × Option (List JSVal)) :=
  match error with
  | some err => Except.error err
  | none =>
    match stream with
    | none => Except.ok (JSVal.undef, none)
    | some buf =>
      let r := drainLoop selectorFunc buf
      Except.ok (r.1, some r.2)

/-- Closure state of one adapter (lines 33-36): the sticky `error` slot, the
attached stream's buffer (`none` before attachment), the `isDone` flag and the
current `readablePromise`.  `paused` records the effect of `stream.pause()`
(line 116); the pull path never consults it. -/
structure AdapterState where
  error : Option JSErr
  stream : Option (List JSVal)
  isDone : Bool
  readable : SigState
  paused : Bool
deriving DecidableEq

/-- Outcome of one `iterator()` call in the sequential model: the returned
promise resolves with a value (`undef` being the terminal marker), rejects
with an error, or is still pending because the call suspended on the current
`readablePromise` (line 98).  `spin` marks fuel exhaustion of the modelled
line-108 recursion and never arises in the theorems below. -/
inductive NextResult where
  | value (v : JSVal)
  | failed (e : JSErr)
  | suspended
  | spin
deriving DecidableEq

/-- The pull operation `iterator` (lines 92-110), run sequentially (no source
event fires during the call).  Path: first `readStream` (line 94; the
initialization wait of line 95 is not modelled — the states considered are
attached or unattached via `stream`); a non-`undefined` value is returned
(lines 98, 100-102); on `undefined` the call awaits the current
`readablePromise` (line 98): still pending means the call suspends; rejected
propagates the error; resolved runs `readStream` again and either returns the
value, returns terminal when `isDone` (line 101), or retries via the line-108
recursion, bounded by `fuel`. -/
def nextSeq (selectorFunc : Option (JSVal → JSVal)) :
    Nat → AdapterState → NextResult × AdapterState
  | fuel, s =>
    match readStream selectorFunc s.error s.stream with
    | Except.error e => (NextResult.failed e, s)
    | Except.ok (v, st1) =>
      let s1 : AdapterState := { s with stream := st1 }
      if v = JSVal.undef then
        match s1.readable with
        | SigState.pending => (NextResult.suspended, s1)
        | SigState.rejected e => (NextResult.failed e, s1)
        | SigState.resolved =>
          match readStream selectorFunc s1.error s1.stream with
          | Except.error e => (NextResult.failed e, s1)
          | Except.ok (w, st2) =>
            let s2 : AdapterState := { s1 with stream := st2 }
            if w = JSVal.undef then
              if s2.isDone then (NextResult.value JSVal.undef, s2)
              else
                match fuel with
                | 0 => (NextResult.spin, s2)
                | f + 1 => nextSeq selectorFunc f s2
            else (NextResult.value w, s2)
      else (NextResult.value v, s1)

/-- Iterate `nextSeq` a number of times, collecting each call's outcome. -/
def iterateNext (selectorFunc : Option (JSVal → JSVal)) (fuel : Nat) :
    Nat → AdapterState → List NextResult
  | 0, _ => []
  | n + 1, s =>
    let r := nextSeq selectorFunc fuel s
    r.1 :: iterateNext selectorFunc fuel n r.2

/-- Resumption of an `iterator()` call that suspended at line 98 on the
current `readablePromise`: once that promise settles, a rejection propagates
to the caller, and a resolution re-runs `readStream` and the line 100-108
logic. -/
def resumeSuspended (selectorFunc : Option (JSVal → JSVal)) (fuel : Nat)
    (s : AdapterState) : NextResult × AdapterState :=
  match s.readable with
  | SigState.pending => (NextResult.suspended, s)
  | SigState.rejected e => (NextResult.failed e, s)
  | SigState.resolved =>
    match readStream selectorFunc s.error s.stream with
    | Except.error e => (NextResult.failed e, s)
    | Except.ok (w, st2) =>
      let s2 : AdapterState := { s with stream := st2 }
      if w = JSVal.undef then
        if s2.isDone then (NextResult.value JSVal.undef, s2)
        else nextSeq selectorFunc fuel s2
      else (NextResult.value w, s2)

/-- `Deferred.resolve` on the current signal: settles it if pending, no-op on
an already settled promise. -/
def resolveSig : SigState → SigState
  | SigState.pending => SigState.resolved
  | st => st

/-- `Deferred.reject` on the current signal: rejects it if pending, no-op on
an already settled promise. -/
def rejectSig (e : JSErr) : SigState → SigState
  | SigState.pending => SigState.rejected e
  | st => st

/-- `readablePromise.promise.cancel()` (line 120), under the cancellable
promise semantics the code relies on (it constructs
`Promise.CancellationError` at line 119, and the package README states that
on cancellation all pending promises are rejected): cancelling a pending
promise rejects it with a `CancellationError`; cancelling a settled promise
is a no-op. -/
def cancelSig : SigState → SigState
  | SigState.pending => SigState.rejected JSErr.cancellation
  | st => st

/-- The 'readable' handler (lines 40-45): the stream has buffered fresh
items; the handler resolves the current `readablePromise` and replaces it
with a fresh pending `Deferred`, so the adapter's *current* signal after the
event is pending again. -/
def onReadable (newItems : List JSVal) (s : AdapterState) : AdapterState :=
  { s with stream := s.stream.map (fun buf => buf ++ newItems),
           readable := SigState.pending }

/-- The 'end' handler (lines 46-49): set `isDone` and resolve the current
signal (which is not replaced, so it stays resolved). -/
def onEnd (s : AdapterState) : AdapterState :=
  { s with isDone := true, readable := resolveSig s.readable }

/-- The 'error' handler (lines 50-53): store the error into the closure
variable `error` — the assignment at line 51 is unconditional, there is no
first-write check — and reject the current signal. -/
def onError (e : JSErr) (s : AdapterState) : AdapterState :=
  { s with error := some e, readable := rejectSig e s.readable }

/-- `iterator.cancel` (lines 112-121) on an attached adapter: pause the
stream (line 116), install a `CancellationError` as the sticky error only if
no error is set yet (lines 118-119), and cancel the current
`readablePromise` (line 120, see `cancelSig`). -/
def cancel (s : AdapterState) : AdapterState :=
  { s with paused := true,
           error := match s.error with
             | none => some JSErr.cancellation
             | some e => some e,
           readable := cancelSig s.readable }

/-- State of an adapter whose source has emitted its 'end' notification with
no error: `isDone` was set and the current signal resolved by the 'end'
handler; a Node stream emits 'end' only once its buffer has been fully
consumed, so the attached buffer is empty. -/
def endedCleanly (s : AdapterState) : Prop :=
  s.error = none ∧ s.stream = some [] ∧ s.isDone = true ∧ s.readable = SigState.resolved

instance (s : AdapterState) : Decidable (endedCleanly s) := by
  unfold endedCleanly
  infer_instance

/-- A promistreamus-style inner iterator backed by a finite item list, with an
instrumentation counter: `pulls` counts how many times the iterator function
has been invoked.  One invocation consumes the next item (resolving with it)
or, when the list is exhausted, resolves with the terminal marker — a
promistreamus adapter keeps resolving terminal after exhaustion (lines
46-49, 100-102). -/
structure InnerIter (α : Type) where
  items : List α
  pulls : Nat
deriving DecidableEq

/-- Recursion core of `select` (lines 145-156), structurally recursive on the
inner iterator's remaining items: each round pulls once from the inner
iterator (line 146; the pull counter is bumped), an `undefined` result is
propagated unchanged (lines 147-149), otherwise the converter runs (line 150,
`none` modelling an `undefined` result): a skipped value recurses into
`selector()` (lines 151-152), a kept value is returned (line 154). -/
def selectorGo {α β : Type} (converter : α → Option β) :
    List α → Nat → Option β × InnerIter α
  | [], pulls => (none, ⟨[], pulls + 1⟩)
  | v :: rest, pulls =>
    match converter v with
    | none => selectorGo converter rest (pulls + 1)
    | some w => (some w, ⟨rest, pulls + 1⟩)

/-- One call of the iterator returned by `select` (lines 144-158). -/
def selector {α β : Type} (converter : α → Option β) (it : InnerIter α) :
    Option β × InnerIter α :=
  selectorGo converter it.items it.pulls

/-- Repeatedly call `selector`, collecting resolved values until the first
terminal result.  `n` bounds the number of calls; `n ≥ it.items.length`
suffices to reach the end of any inner list. -/
def runSelector {α β : Type} (converter : α → Option β) :
    Nat → InnerIter α → List β
  | 0, _ => []
  | n + 1, it =>
    match selector converter it with
    | (none, _) => []
    | (some w, it2) => w :: runSelector converter n it2

/-- The test-suite filter (test/promistreamus.js): drop non-positive values,
double the rest. -/
def exFilter (v : Int) : Option Int :=
  if v ≤ 0 then none else some (v * 2)

/-- State of one `flatten` closure (lines 165-192).  `pending` holds the item
lists of the sub-adapters the outer iterator has not yet produced; `sub` is
the shared `subIterator` variable: `none` models its initial value `false`
(line 166), `some none` an acquisition that resolved to `undefined` (outer
sequence exhausted), `some (some l)` an acquired sub-adapter with remaining
items `l`; `done` is `isDone` (line 167). -/
structure FlatState (α : Type) where
  pending : List (List α)
  sub : Option (Option (List α))
  done : Bool
deriving DecidableEq

/-- The outer iterator of `flatten`: each call produces the next sub-adapter,
or `undefined` when there are none left. -/
def outerPull {α : Type} : List (List α) → Option (List α) × List (List α)
  | [] => (none, [])
  | l :: rest => (some l, rest)

/-- `getNextValAsync` (lines 168-190), run sequentially: return terminal when
`isDone` (lines 169-170); acquire the first sub-adapter if none is in flight
(lines 171-173); a resolved `undefined` acquisition marks the outer sequence
done (lines 176-179); otherwise pull from the sub-adapter (line 180): an item
is returned (lines 181-183), and on terminal the outer cursor advances — in
the sequential model the line-184 identity check `currentSubIterator ===
subIterator` always passes — and the call retries (lines 184-187), bounded by
`fuel`, the number of retries allowed (the sequential retry depth of one call
is at most `pending.length`, so any `fuel > pending.length` gives the code's
behaviour). -/
def getNextValStep {α : Type} (s : FlatState α)
    (retry : FlatState α → Option α × FlatState α) : Option α × FlatState α :=
  if s.done then (none, s)
  else
    let acq : Option (List α) × List (List α) :=
      match s.sub with
      | none => outerPull s.pending
      | some it => (it, s.pending)
    match acq.1, acq.2 with
    | none, pend1 => (none, { pending := pend1, sub := some none, done := true })
    | some l, pend1 =>
      match l with
      | v :: tl => (some v, { pending := pend1, sub := some (some tl), done := s.done })
      | [] =>
        let acq2 := outerPull pend1
        retry { pending := acq2.2, sub := some acq2.1, done := s.done }

/-- `getNextValAsync` with at most `fuel` line-187 retries; at exhausted fuel
the call stops at the retry point (never reached from the initial states the
theorems use, whose fuel exceeds the retry depth). -/
def getNextVal {α : Type} : Nat → FlatState α → Option α × FlatState α
  | 0, s => getNextValStep s (fun s2 => (none, s2))
  | f + 1, s => getNextValStep s (getNextVal f)

/-- Repeatedly call `getNextVal`, collecting resolved values until the first
terminal result. -/
def runFlat {α : Type} (fuel : Nat) : Nat → FlatState α → List α
  | 0, _ => []
  | n + 1, s =>
    match getNextVal fuel s with
    | (none, _) => []
    | (some v, s2) => v :: runFlat fuel n s2

/-- Items `flatten` still has to deliver: the rest of the current
sub-adapter, then the items of the sub-adapters not yet acquired. -/
def remaining {α : Type} (s : FlatState α) : List α :=
  if s.done then []
  else
    (match s.sub with
     | some (some l) => l
     | _ => []) ++ s.pending.flatten

/-- Structural invariant of a `flatten` state: once an acquisition has
resolved to `undefined`, the outer iterator had no sub-adapters left. -/
def FlatWF {α : Type} (s : FlatState α) : Prop :=
  s.sub = some none → s.pending = []

/-- Shared state of one adapter under concurrent `next()` calls.  The
source's items are identified by their position in the source sequence:
`pushed` counts the items the source has produced so far (indices
`0..pushed-1`), `buf` is the source's internal buffer (indices pushed but not
yet taken by `stream.read()`), and `callers` has one slot per concurrent
`next()` call — `some i` once that call's promise has resolved with item
`i`. -/
structure ConcState where
  pushed : Nat
  buf : List Nat
  callers : List (Option Nat)
deriving DecidableEq

/-- Interleaving steps of the adapter with `N` source items.  `push` is the
source buffering its next item (and firing 'readable').  `drain` is the
decisive atomic block of a caller's `next()`: the drain loop of `readStream`
(lines 83-88) runs synchronously inside one promise continuation — it cannot
be interleaved mid-loop — and `stream.read()` removes the item it returns
from the shared buffer, so the caller resolves with the buffer's head and no
other caller can ever obtain it.  The suspend/wake machinery (lines 98-108)
only decides *when* a caller runs its next drain attempt, never *which* item
a drain takes, so it is abstracted into the free interleaving of `drain`
steps. -/
inductive ConcStep (N : Nat) : ConcState → ConcState → Prop where
  | push : ∀ s : ConcState, s.pushed < N →
      ConcStep N s { pushed := s.pushed + 1, buf := s.buf ++ [s.pushed], callers := s.callers }
  | drain : ∀ (s : ConcState) (c i : Nat) (rest : List Nat),
      s.callers[c]? = some none →
      s.buf = i :: rest →
      ConcStep N s { pushed := s.pushed, buf := rest, callers := s.callers.set c (some i) }

/-- States reachable by `K` concurrent `next()` calls against a fresh adapter
over a source of `N` items. -/
inductive ConcReachable (N K : Nat) : ConcState → Prop where
  | init : ConcReachable N K ⟨0, [], List.replicate K none⟩
  | step : ∀ s t : ConcState, ConcReachable N K s → ConcStep N s t → ConcReachable N K t

/-- Caller states of one `flatten` closure under concurrent calls: a caller
is between calls (`idle`), has captured the shared `subIterator` reference of
generation `g` (`captured g`, line 174), or has additionally seen that
generation's sub-adapter resolve `undefined` (`sawTerminal g`, line 180 with
`val === undefined`). -/
inductive FCaller where
  | idle
  | captured (g : Nat)
  | sawTerminal (g : Nat)
deriving DecidableEq

/-- Shared state of one `flatten` closure under concurrent calls.  The
successive values of the shared `subIterator` variable are numbered by a
generation counter `gen`; `advanced` logs, most recent first, the generation
current at each exhaustion-triggered `outerPull` invocation (the line-185
`subIterator = Promise.try(iterator)` replacement). -/
structure FlattenConc where
  gen : Nat
  advanced : List Nat
  callers : List FCaller
deriving DecidableEq

/-- Interleaving steps of concurrent `flatten` callers.  `capture` is line
174 (`var currentSubIterator = subIterator`).  `gotItem`/`gotTerminal` are
the sub-adapter pull resolving with an item (lines 181-183; the caller's
promise resolves and the slot is reused for its next call) or with terminal.
`advanceHit`/`advanceMiss` are the continuation at lines 184-187: the
comparison `currentSubIterator === subIterator` and, when it holds, the
replacement of `subIterator`, executed synchronously in one continuation with
no await between the test and the assignment — hence a single atomic step;
either way the caller then retries via `getNextValAsync()` (line 187). -/
inductive FStep : FlattenConc → FlattenConc → Prop where
  | capture : ∀ (s : FlattenConc) (c : Nat),
      s.callers[c]? = some FCaller.idle →
      FStep s { s with callers := s.callers.set c (FCaller.captured s.gen) }
  | gotItem : ∀ (s : FlattenConc) (c g : Nat),
      s.callers[c]? = some (FCaller.captured g) →
      FStep s { s with callers := s.callers.set c FCaller.idle }
  | gotTerminal : ∀ (s : FlattenConc) (c g : Nat),
      s.callers[c]? = some (FCaller.captured g) →
      FStep s { s with callers := s.callers.set c (FCaller.sawTerminal g) }
  | advanceHit : ∀ (s : FlattenConc) (c g : Nat),
      s.callers[c]? = some (FCaller.sawTerminal g) →
      g = s.gen →
      FStep s { gen := s.gen + 1, advanced := s.gen :: s.advanced,
                callers := s.callers.set c FCaller.idle }
  | advanceMiss : ∀ (s : FlattenConc) (c g : Nat),
      s.callers[c]? = some (FCaller.sawTerminal g) →
      g ≠ s.gen →
      FStep s { s with callers := s.callers.set c FCaller.idle }

/-- States reachable by `K` concurrent callers of one fresh `flatten`
closure (initial generation 0 is the line-172 acquisition). -/
inductive FReachable (K : Nat) : FlattenConc → Prop where
  | init : FReachable K ⟨0, [], List.replicate K FCaller.idle⟩
  | step : ∀ s t : FlattenConc, FReachable K s → FStep s t → FReachable K t

/-- A fresh attached adapter: no error, empty buffer, source not ended,
current signal pending. -/
def cleanState : AdapterState :=
  ⟨none, some [], false, SigState.pending, false⟩

/-- An adapter whose source has already errored (code 3) while two items sit
unread in the stream's buffer. -/
def erroredState : AdapterState :=
  ⟨some (JSErr.srcError 3), some [JSVal.num 1, JSVal.num 2], false,
   SigState.rejected (JSErr.srcError 3), false⟩

lemma nextSeq_of_error (selectorFunc : Option (JSVal → JSVal)) (fuel : Nat)
    (s : AdapterState) (e : JSErr) (h : s.error = some e) :
    nextSeq selectorFunc fuel s = (NextResult.failed e, s) := by
  have hr : readStream selectorFunc s.error s.stream = Except.error e := by
    rw [h]; rfl
  unfold nextSeq
  rw [hr]

/-- C10: if the sticky error is set while raw items are still buffered in the
source, every `next()` call fails with the error without delivering any of
the buffered items — the line-76 error check pre-empts the line-83 drain
loop, and the state (in particular the buffer) is left untouched. -/
theorem c10_error_preempts_buffered (selectorFunc : Option (JSVal → JSVal))
    (fuel : Nat) (s : AdapterState) (e : JSErr) (h : s.error = some e) :
    nextSeq selectorFunc fuel s = (NextResult.failed e, s) :=
  nextSeq_of_error selectorFunc fuel s e h

/-- Witness for C10 at a concrete state: the source errored with two items
still buffered; `next()` rejects with the error and the buffer is intact. -/
theorem c10_error_preempts_buffered_witness :
    nextSeq none 5 erroredState = (NextResult.failed (JSErr.srcError 3), erroredState) :=
  c10_error_preempts_buffered none 5 erroredState (JSErr.srcError 3) rfl

/-- C3: after the source has emitted 'end' with no error (so `isDone` is set,
the buffer is drained and the current signal is resolved), every subsequent
`next()` call resolves to the terminal marker `undefined`, indefinitely, and
no call suspends, fails or yields an item — the state is left unchanged, so
any number of further calls all return terminal. -/
theorem c3_exhaustion_idempotent (selectorFunc : Option (JSVal → JSVal))
    (fuel n : Nat) (s : AdapterState) (h : endedCleanly s) :
    iterateNext selectorFunc fuel n s =
      List.replicate n (NextResult.value JSVal.undef) := by
  obtain ⟨er, st, d, r, p⟩ := s
  obtain ⟨he, hs, hd, hr⟩ := h
  simp only [] at he hs hd hr
  subst he hs hd hr
  have hstep : nextSeq selectorFunc fuel ⟨none, some [], true, SigState.resolved, p⟩ =
      (NextResult.value JSVal.undef, ⟨none, some [], true, SigState.resolved, p⟩) := by
    unfold nextSeq
    rfl
  induction n with
  | zero => rfl
  | succ n ih =>
    simp only [iterateNext, hstep, List.replicate_succ, ih]

/-- Witness for C3: a concretely ended adapter; three further calls all
return the terminal marker. -/
theorem c3_exhaustion_idempotent_witness :
    iterateNext none 0 3 ⟨none, some [], true, SigState.resolved, false⟩ =
      List.replicate 3 (NextResult.value JSVal.undef) :=
  c3_exhaustion_idempotent none 0 3 ⟨none, some [], true, SigState.resolved, false⟩
    ⟨rfl, rfl, rfl, rfl⟩

/-- C2 counterexample: the sticky error is NOT first-write-wins.  Starting
from a fresh adapter, `cancel()` installs the cancellation error first; a
later source 'error' event (the unconditional assignment at line 51)
replaces it.  The first-written error does not survive. -/
theorem c2_counterexample :
    (cancel cleanState).error = some JSErr.cancellation ∧
    (onError (JSErr.srcError 7) (cancel cleanState)).error = some (JSErr.srcError 7) ∧
    JSErr.srcError 7 ≠ JSErr.cancellation := by
  decide

/-- C2 amended: `cancel()` is first-write-wins (lines 118-119 never replace
an already-set error), no transition ever clears the error slot, and while an
error is stored every `next()` call fails with the currently stored error;
but a source 'error' event overwrites the slot unconditionally (line 51), so
a source error arriving after cancellation replaces the cancellation
error. -/
theorem c2_sticky_error_amended (s : AdapterState) (e : JSErr) (h : s.error = some e) :
    (cancel s).error = some e ∧
    (onEnd s).error = some e ∧
    (∀ items, (onReadable items s).error = some e) ∧
    (∀ e2, (onError e2 s).error = some e2) ∧
    ∀ (selectorFunc : Option (JSVal → JSVal)) (fuel : Nat),
      nextSeq selectorFunc fuel s = (NextResult.failed e, s) := by
  refine ⟨?_, ?_, fun items => ?_, fun e2 => ?_,
    fun selectorFunc fuel => nextSeq_of_error selectorFunc fuel s e h⟩
  · simp [cancel, h]
  · simp [onEnd, h]
  · simp [onReadable, h]
  · simp [onError]

/-- Witness for the amended C2 at a concrete errored state. -/
theorem c2_sticky_error_amended_witness :
    (cancel erroredState).error = some (JSErr.srcError 3) ∧
    (onEnd erroredState).error = some (JSErr.srcError 3) ∧
    (∀ items, (onReadable items erroredState).error = some (JSErr.srcError 3)) ∧
    (∀ e2, (onError e2 erroredState).error = some e2) ∧
    ∀ (selectorFunc : Option (JSVal → JSVal)) (fuel : Nat),
      nextSeq selectorFunc fuel erroredState =
        (NextResult.failed (JSErr.srcError 3), erroredState) :=
  c2_sticky_error_amended erroredState (JSErr.srcError 3) rfl

/-- C4: a `next()` call suspended on the current `readablePromise` (the
signal is still pending) settles as a failure carrying the cancellation
error once `cancel()` runs: `cancel()` rejects the pending signal (line 120)
and the suspended continuation propagates the rejection instead of hanging. -/
theorem c4_cancel_wakes_suspended (selectorFunc : Option (JSVal → JSVal))
    (fuel : Nat) (s : AdapterState) (h : s.readable = SigState.pending) :
    resumeSuspended selectorFunc fuel (cancel s) =
      (NextResult.failed JSErr.cancellation, cancel s) := by
  have hc : (cancel s).readable = SigState.rejected JSErr.cancellation := by
    simp [cancel, cancelSig, h]
  simp [resumeSuspended, hc]

/-- Witness for C4: a fresh adapter with a pending signal; after `cancel()`
the suspended pull settles with the cancellation failure. -/
theorem c4_cancel_wakes_suspended_witness :
    resumeSuspended none 0 (cancel cleanState) =
      (NextResult.failed JSErr.cancellation, cancel cleanState) :=
  c4_cancel_wakes_suspended none 0 cleanState rfl

/-- C9 counterexample: the terminal marker is NOT disjoint from the item
domain.  The marker is the in-band value `undefined`, and a source holding
the single legitimate item `undefined` is indistinguishable from an empty
source: the drain loop (lines 84-86, no selector, `res = value`) skips the
item, so it is never delivered and is conflated with "no item buffered". -/
theorem c9_counterexample :
    readStream none none (some [JSVal.undef]) = readStream none none (some []) ∧
    readStream none none (some []) = Except.ok (JSVal.undef, some []) :=
  ⟨rfl, rfl⟩

/-- C9 amended: every buffered item other than the in-band markers —
`undefined`, the code's own "no item" marker, and `null`, which the stream
protocol reserves as its end signal and therefore never buffers — is
delivered as an item, including falsy-but-valid items such as `0`, `""` and
`false`; an item equal to `undefined` is silently skipped (and, in the older
`index.js` revision, the truthiness drain-loop test additionally conflates
every falsy item with "nothing buffered"). -/
theorem c9_falsy_items_delivered_amended (v : JSVal) (buf : List JSVal)
    (hu : v ≠ JSVal.undef) (hn : v ≠ JSVal.nullV) :
    readStream none none (some (v :: buf)) = Except.ok (v, some buf) := by
  simp [readStream, drainLoop, hu, hn]

/-- Witness for the amended C9: the falsy items `0` and `false` are
delivered as items. -/
theorem c9_falsy_items_delivered_amended_witness :
    readStream none none (some [JSVal.num 0, JSVal.boolV false]) =
      Except.ok (JSVal.num 0, some [JSVal.boolV false]) :=
  c9_falsy_items_delivered_amended (JSVal.num 0) [JSVal.boolV false]
    (by decide) (by decide)

/-- C6 counterexample: `select` re-pulls the exhausted inner iterator.  With
the inner iterator already terminal, the first `selector()` call pulls it
(pull count 1) and returns terminal; the second call pulls it AGAIN (pull
count 2) — the claim's "without invoking the inner adapter's pull operation
again" is false: each `selector()` call starts with `iterator()` (line 146)
unconditionally. -/
theorem c6_counterexample :
    (selector (fun v : Int => some v) ⟨[], 0⟩).1 = none ∧
    (selector (fun v : Int => some v) ⟨[], 0⟩).2.pulls = 1 ∧
    (selector (fun v : Int => some v)
        ((selector (fun v : Int => some v) ⟨[], 0⟩).2)).1 = none ∧
    (selector (fun v : Int => some v)
        ((selector (fun v : Int => some v) ⟨[], 0⟩).2)).2.pulls = 2 :=
  ⟨rfl, rfl, rfl, rfl⟩

/-- C6 amended: once the inner iterator is exhausted, every subsequent
`selector()` call does return the terminal marker — but each such call
invokes the inner iterator's pull operation once more (the pull counter
increments); terminal persists because a promistreamus inner iterator keeps
reporting terminal after exhaustion, not because `select` memoizes it. -/
theorem c6_terminal_propagates_with_repull_amended {α β : Type}
    (converter : α → Option β) (it : InnerIter α) (h : it.items = []) :
    selector converter it = (none, ⟨[], it.pulls + 1⟩) := by
  simp [selector, h, selectorGo]

/-- Witness for the amended C6 at a concrete exhausted inner iterator. -/
theorem c6_terminal_propagates_with_repull_amended_witness :
    selector (fun v : Int => some v) ⟨[], 7⟩ = (none, ⟨[], 8⟩) :=
  c6_terminal_propagates_with_repull_amended (fun v : Int => some v) ⟨[], 7⟩ rfl

lemma runSelector_filterMap {α β : Type} (converter : α → Option β) :
    ∀ (l : List α) (p n : Nat), l.length ≤ n →
      runSelector converter n ⟨l, p⟩ = l.filterMap converter := by
  intro l
  induction l with
  | nil =>
    intro p n _
    cases n with
    | zero => rfl
    | succ m => rfl
  | cons v rest ih =>
    intro p n hn
    cases n with
    | zero => simp at hn
    | succ m =>
      cases hc : converter v with
      | none =>
        have hstep : runSelector converter (m + 1) ⟨v :: rest, p⟩ =
            runSelector converter (m + 1) ⟨rest, p + 1⟩ := by
          simp only [runSelector, selector, selectorGo, hc]
        rw [hstep, ih (p + 1) (m + 1) (by simp at hn; omega)]
        simp [List.filterMap_cons, hc]
      | some w =>
        have hstep : runSelector converter (m + 1) ⟨v :: rest, p⟩ =
            w :: runSelector converter m ⟨rest, p + 1⟩ := by
          simp only [runSelector, selector, selectorGo, hc]
        rw [hstep, ih (p + 1) m (by simp at hn; omega)]
        simp [List.filterMap_cons, hc]

/-- C5: for every inner iterator backed by a finite item list and every
converter, repeatedly calling the `select` wrapper yields exactly the
converter-images of the items the converter keeps, in the original relative
order (`List.filterMap`), followed by terminal (on the exhausted inner
iterator, `selector` returns the no-item marker). -/
theorem c5_select_skip_law {α β : Type} (converter : α → Option β)
    (l : List α) (p n : Nat) (h : l.length ≤ n) :
    runSelector converter n ⟨l, p⟩ = l.filterMap converter ∧
    ∀ q, (selector converter ⟨[], q⟩).1 = none :=
  ⟨runSelector_filterMap converter l p n h, fun _ => rfl⟩

/-- Witness for C5 at the spec's example: items `[0,1,-1,2,3]` with the
drop-non-positive, double-the-rest filter yield `[2,4,6]`. -/
theorem c5_select_skip_law_witness :
    runSelector exFilter 5 ⟨[0, 1, -1, 2, 3], 0⟩ = [2, 4, 6] ∧
    (selector exFilter ⟨[], 9⟩).1 = none := by
  have h := c5_select_skip_law exFilter [0, 1, -1, 2, 3] 0 5 (by decide)
  exact ⟨h.1.trans (by decide), h.2 9⟩

lemma getNextVal_exhausted {α : Type} (fuel : Nat) :
    getNextVal fuel (⟨[], some none, false⟩ : FlatState α) =
      (none, ⟨[], some none, true⟩) := by
  cases fuel <;> rfl

lemma getNextVal_spec {α : Type} :
    ∀ (fuel : Nat) (s : FlatState α), FlatWF s → s.pending.length < fuel →
      (getNextVal fuel s).1 = (remaining s).head? ∧
      remaining (getNextVal fuel s).2 = (remaining s).tail ∧
      FlatWF (getNextVal fuel s).2 ∧
      (getNextVal fuel s).2.pending.length ≤ s.pending.length := by
  intro fuel
  induction fuel with
  | zero =>
    intro s _ hf
    omega
  | succ f ih =>
    intro s hwf hf
    obtain ⟨pend, sub, done⟩ := s
    cases done with
    | true =>
      exact ⟨rfl, by simp [remaining, getNextVal, getNextValStep], hwf, le_refl _⟩
    | false =>
      cases sub with
      | none =>
        cases pend with
        | nil =>
          refine ⟨rfl, ?_, fun _ => rfl, by simp [getNextVal, getNextValStep, outerPull]⟩
          simp [remaining, getNextVal, getNextValStep, outerPull]
        | cons l rest =>
          cases l with
          | cons v tl =>
            refine ⟨rfl, ?_, by simp [FlatWF, getNextVal, getNextValStep, outerPull], ?_⟩
            · simp [remaining, getNextVal, getNextValStep, outerPull]
            · simp [getNextVal, getNextValStep, outerPull]
          | nil =>
            cases rest with
            | nil =>
              have hstep : getNextVal (f + 1) (⟨[[]], none, false⟩ : FlatState α) =
                  getNextVal f ⟨[], some none, false⟩ := rfl
              rw [hstep, getNextVal_exhausted]
              exact ⟨rfl, rfl, fun _ => rfl, by simp⟩
            | cons l2 rest2 =>
              have hstep : getNextVal (f + 1) (⟨[] :: l2 :: rest2, none, false⟩ : FlatState α) =
                  getNextVal f ⟨rest2, some (some l2), false⟩ := rfl
              have hrec := ih ⟨rest2, some (some l2), false⟩
                (by simp [FlatWF]) (by simp at hf ⊢; omega)
              rw [hstep]
              obtain ⟨h1, h2, h3, h4⟩ := hrec
              refine ⟨?_, ?_, h3, ?_⟩
              · rw [h1]; simp [remaining]
              · rw [h2]; simp [remaining]
              · simp at h4 ⊢; omega
      | some osub =>
        cases osub with
        | none =>
          have hp : pend = [] := hwf rfl
          subst hp
          exact ⟨rfl, by simp [remaining, getNextVal, getNextValStep], fun _ => rfl, le_refl _⟩
        | some l =>
          cases l with
          | cons v tl =>
            refine ⟨rfl, ?_, by simp [FlatWF, getNextVal, getNextValStep], ?_⟩
            · simp [remaining, getNextVal, getNextValStep]
            · simp [getNextVal, getNextValStep]
          | nil =>
            cases pend with
            | nil =>
              have hstep : getNextVal (f + 1) (⟨[], some (some []), false⟩ : FlatState α) =
                  getNextVal f ⟨[], some none, false⟩ := rfl
              rw [hstep, getNextVal_exhausted]
              exact ⟨rfl, rfl, fun _ => rfl, by simp⟩
            | cons l2 rest2 =>
              have hstep : getNextVal (f + 1)
                  (⟨l2 :: rest2, some (some []), false⟩ : FlatState α) =
                  getNextVal f ⟨rest2, some (some l2), false⟩ := rfl
              have hrec := ih ⟨rest2, some (some l2), false⟩
                (by simp [FlatWF]) (by simp at hf ⊢; omega)
              rw [hstep]
              obtain ⟨h1, h2, h3, h4⟩ := hrec
              refine ⟨?_, ?_, h3, ?_⟩
              · rw [h1]; simp [remaining]
              · rw [h2]; simp [remaining]
              · simp at h4 ⊢; omega

lemma runFlat_take {α : Type} :
    ∀ (n fuel : Nat) (s : FlatState α), FlatWF s → s.pending.length < fuel →
      runFlat fuel n s = (remaining s).take n := by
  intro n
  induction n with
  | zero => intro fuel s _ _; rfl
  | succ m ih =>
    intro fuel s hwf hf
    obtain ⟨h1, h2, h3, h4⟩ := getNextVal_spec fuel s hwf hf
    cases hg : getNextVal fuel s with
    | mk r s2 =>
      rw [hg] at h1 h2 h3 h4
      simp only [] at h1 h2 h3 h4
      cases hrem : remaining s with
      | nil =>
        rw [hrem] at h1
        simp at h1
        subst h1
        simp [runFlat, hg]
      | cons v tl =>
        rw [hrem] at h1 h2
        simp at h1 h2
        subst h1
        have hrest := ih fuel s2 h3 (lt_of_le_of_lt h4 hf)
        simp [runFlat, hg, hrest, h2]

/-- C7: `flatten` over any finite sequence of sub-adapters yields the
concatenation of their item sequences, followed by terminal; empty
sub-adapters contribute nothing and are skipped transparently.  `fuel`
bounds the line-187 retries of a single call (any bound above the number of
sub-adapters suffices) and `n` is the number of calls made (any bound at or
above the total item count suffices). -/
theorem c7_flatten_concatenation {α : Type} (lls : List (List α)) (fuel n : Nat)
    (hfuel : lls.length < fuel) (hn : lls.flatten.length ≤ n) :
    runFlat fuel n ⟨lls, none, false⟩ = lls.flatten := by
  have hwf : FlatWF (⟨lls, none, false⟩ : FlatState α) := fun h => nomatch h
  rw [runFlat_take n fuel ⟨lls, none, false⟩ hwf hfuel]
  have hrem : remaining (⟨lls, none, false⟩ : FlatState α) = lls.flatten := by
    simp [remaining]
  rw [hrem]
  exact List.take_of_length_le hn

/-- Witness for C7 at the three sequences of the spec's flatten law:
`[[1,2,3]]`, `[[1],[2],[3]]` and `[[],[1,2],[],[],[3]]` all flatten to
`[1,2,3]`. -/
theorem c7_flatten_concatenation_witness :
    runFlat 2 3 (⟨[[1, 2, 3]], none, false⟩ : FlatState Nat) = [1, 2, 3] ∧
    runFlat 4 3 (⟨[[1], [2], [3]], none, false⟩ : FlatState Nat) = [1, 2, 3] ∧
    runFlat 6 3 (⟨[[], [1, 2], [], [], [3]], none, false⟩ : FlatState Nat) = [1, 2, 3] :=
  ⟨(c7_flatten_concatenation [[1, 2, 3]] 2 3 (by decide) (by decide)).trans (by decide),
   (c7_flatten_concatenation [[1], [2], [3]] 4 3 (by decide) (by decide)).trans (by decide),
   (c7_flatten_concatenation [[], [1, 2], [], [], [3]] 6 3
      (by decide) (by decide)).trans (by decide)⟩

/-- Items actually delivered to callers: the resolved slots, in slot
order. -/
def delivered (l : List (Option Nat)) : List Nat :=
  l.filterMap id

lemma delivered_replicate_none : ∀ K : Nat, delivered (List.replicate K none) = []
  | 0 => rfl
  | K + 1 => delivered_replicate_none K

lemma delivered_length_of_all_some :
    ∀ l : List (Option Nat), (∀ x ∈ l, x ≠ none) → (delivered l).length = l.length := by
  intro l
  induction l with
  | nil => intro _; rfl
  | cons x xs ih =>
    intro h
    cases x with
    | none => exact absurd rfl (h none (by simp))
    | some a =>
      have : delivered (some a :: xs) = a :: delivered xs := rfl
      rw [this]
      simp [ih fun x hx => h x (by simp [hx])]

lemma delivered_set_perm :
    ∀ (l : List (Option Nat)) (c : Nat), l[c]? = some none → ∀ i : Nat,
      (delivered (l.set c (some i))).Perm (i :: delivered l) := by
  intro l
  induction l with
  | nil => intro c hc i; simp at hc
  | cons x xs ih =>
    intro c hc i
    cases c with
    | zero =>
      rw [List.getElem?_cons_zero] at hc
      obtain rfl : x = none := by simpa using hc
      have h1 : delivered ((none :: xs).set 0 (some i)) = i :: delivered xs := rfl
      have h2 : delivered (none :: xs) = delivered xs := rfl
      rw [h1, h2]
    | succ k =>
      rw [List.getElem?_cons_succ] at hc
      cases x with
      | none =>
        have h1 : delivered ((none :: xs).set (k + 1) (some i)) =
            delivered (xs.set k (some i)) := rfl
        have h2 : delivered (none :: xs) = delivered xs := rfl
        rw [h1, h2]
        exact ih k hc i
      | some a =>
        have h1 : delivered ((some a :: xs).set (k + 1) (some i)) =
            a :: delivered (xs.set k (some i)) := rfl
        have h2 : delivered (some a :: xs) = a :: delivered xs := rfl
        rw [h1, h2]
        exact ((ih k hc i).cons a).trans (List.Perm.swap i a (delivered xs))

/-- Invariant of the concurrent-delivery machine: the source has produced
`pushed ≤ N` items; for some `d` (the number of deliveries so far) the buffer
holds exactly the contiguous index range `[d, pushed)` in order, and the
delivered items are, up to caller order, exactly the indices `[0, d)` — each
delivered exactly once. -/
def ConcInv (N : Nat) (s : ConcState) : Prop :=
  s.pushed ≤ N ∧
  ∃ d : Nat, s.pushed = d + s.buf.length ∧
    s.buf = List.range' d s.buf.length ∧
    (delivered s.callers).Perm (List.range d)

lemma concStep_inv {N : Nat} {s t : ConcState}
    (hs : ConcInv N s) (h : ConcStep N s t) : ConcInv N t := by
  obtain ⟨hN, d, hp, hb, hperm⟩ := hs
  cases h with
  | push hlt =>
    refine ⟨?_, d, ?_, ?_, hperm⟩
    · show s.pushed + 1 ≤ N
      omega
    · show s.pushed + 1 = d + (s.buf ++ [s.pushed]).length
      rw [List.length_append, List.length_cons, List.length_nil]
      omega
    · show s.buf ++ [s.pushed] = List.range' d (s.buf ++ [s.pushed]).length
      rw [List.length_append, List.length_cons, List.length_nil]
      have h1 : List.range' d (s.buf.length + 1) =
          List.range' d s.buf.length ++ [d + s.buf.length] := by
        have h2 := @List.range'_concat 1 d s.buf.length
        simpa using h2
      have hlen0 : s.buf.length + (0 + 1) = s.buf.length + 1 := by omega
      rw [hlen0, h1, ← hb, hp]
  | drain c i rest hc hbuf =>
    have hbl : s.buf.length = rest.length + 1 := by rw [hbuf]; simp
    have hr : i :: rest = List.range' d (rest.length + 1) := by
      rw [← hbuf, ← hbl, ← hb]
    rw [List.range'_succ] at hr
    have hi : i = d := (List.cons.injEq _ _ _ _).mp hr |>.1
    have hrest : rest = List.range' (d + 1) rest.length :=
      (List.cons.injEq _ _ _ _).mp hr |>.2
    refine ⟨by simpa using hN, d + 1, ?_, ?_, ?_⟩
    · simp only []
      omega
    · simpa using hrest
    · have hperm2 := delivered_set_perm s.callers c hc i
      subst hi
      refine hperm2.trans ?_
      refine (hperm.cons i).trans ?_
      rw [List.range_succ]
      exact (List.perm_append_singleton i (List.range i)).symm

lemma conc_reachable_inv {N K : Nat} {s : ConcState} (h : ConcReachable N K s) :
    ConcInv N s ∧ s.callers.length = K := by
  induction h with
  | init =>
    exact ⟨⟨Nat.zero_le N, 0, rfl, rfl, by simp [delivered_replicate_none]⟩, by simp⟩
  | step s t _ hstep ih =>
    refine ⟨concStep_inv ih.1 hstep, ?_⟩
    cases hstep with
    | push _ => exact ih.2
    | drain c i rest _ _ => simpa [List.length_set] using ih.2

/-- C1: no duplication under concurrency.  In every interleaved execution of
`K` concurrent `next()` calls against a source of `N` items, once all `K`
calls have resolved with an item, the `K` received items are pairwise
distinct positions of the source's sequence (no item is handed to two
callers), there are exactly `K` of them, each is a valid position `< N`, and
consequently `K ≤ N`. -/
theorem c1_no_duplication (N K : Nat) (s : ConcState)
    (hr : ConcReachable N K s) (hall : ∀ x ∈ s.callers, x ≠ none) :
    (delivered s.callers).Nodup ∧
    (delivered s.callers).length = K ∧
    K ≤ N ∧
    ∀ i ∈ delivered s.callers, i < N := by
  obtain ⟨⟨hN, d, hp, hb, hperm⟩, hK⟩ := conc_reachable_inv hr
  have hd : (delivered s.callers).length = d := by
    rw [hperm.length_eq, List.length_range]
  have hlen : (delivered s.callers).length = s.callers.length :=
    delivered_length_of_all_some s.callers hall
  have hdK : d = K := by rw [← hd, hlen, hK]
  have hdN : d ≤ N := by omega
  refine ⟨hperm.nodup_iff.mpr (List.nodup_range d), by omega, by omega, ?_⟩
  intro i hi
  have : i ∈ List.range d := hperm.mem_iff.mp hi
  have : i < d := List.mem_range.mp this
  omega

/-- Witness for C1: a concrete interleaving with two callers and two items
(push, push, caller 0 drains, caller 1 drains); both callers resolved, with
the distinct items 0 and 1. -/
theorem c1_no_duplication_witness :
    (delivered [some 0, some 1]).Nodup ∧
    (delivered [some 0, some 1]).length = 2 ∧
    2 ≤ 2 ∧
    ∀ i ∈ delivered [some 0, some 1], i < 2 := by
  have h0 : ConcReachable 2 2 ⟨0, [], [none, none]⟩ := ConcReachable.init
  have h1 : ConcReachable 2 2 ⟨1, [0], [none, none]⟩ :=
    ConcReachable.step _ _ h0 (ConcStep.push _ (by decide))
  have h2 : ConcReachable 2 2 ⟨2, [0, 1], [none, none]⟩ :=
    ConcReachable.step _ _ h1 (ConcStep.push _ (by decide))
  have h3 : ConcReachable 2 2 ⟨2, [1], [some 0, none]⟩ :=
    ConcReachable.step _ _ h2 (ConcStep.drain _ 0 0 [1] rfl rfl)
  have h4 : ConcReachable 2 2 ⟨2, [], [some 0, some 1]⟩ :=
    ConcReachable.step _ _ h3 (ConcStep.drain _ 1 1 [] rfl rfl)
  exact c1_no_duplication 2 2 ⟨2, [], [some 0, some 1]⟩ h4 (by decide)

lemma fstep_inv {s t : FlattenConc}
    (hs : s.advanced = (List.range s.gen).reverse) (h : FStep s t) :
    t.advanced = (List.range t.gen).reverse := by
  cases h with
  | capture c hc => exact hs
  | gotItem c g hc => exact hs
  | gotTerminal c g hc => exact hs
  | advanceMiss c g hc hg => exact hs
  | advanceHit c g hc hg =>
    show s.gen :: s.advanced = (List.range (s.gen + 1)).reverse
    rw [hs, List.range_succ, List.reverse_append]
    simp

/-- C8: in every interleaved execution of concurrent `flatten` callers, the
outer cursor is advanced at most once per sub-adapter exhaustion and no
sub-adapter is skipped: the log of exhaustion-triggered `outerPull`
invocations contains each generation at most once (`Nodup`), and is exactly
the consecutive generations `gen-1, ..., 1, 0` — one successful advance per
generation with no gaps — while a caller whose captured reference is stale
(the `advanceMiss` step, `currentSubIterator !== subIterator`) never invokes
`outerPull` and retries against the already-advanced cursor. -/
theorem c8_advance_once_per_generation (K : Nat) (s : FlattenConc)
    (h : FReachable K s) :
    s.advanced = (List.range s.gen).reverse ∧
    s.advanced.Nodup ∧
    s.advanced.length = s.gen := by
  have hinv : s.advanced = (List.range s.gen).reverse := by
    induction h with
    | init => rfl
    | step s t _ hstep ih => exact fstep_inv ih hstep
  refine ⟨hinv, ?_, ?_⟩
  · rw [hinv]
    exact List.nodup_reverse.mpr (List.nodup_range s.gen)
  · rw [hinv]
    simp

/-- Witness for C8: two callers both capture generation 0 and both observe
its sub-adapter exhausted; the first advances the cursor (one `outerPull`,
generation 0 logged once), the second takes the `advanceMiss` branch and
advances nothing. -/
theorem c8_advance_once_per_generation_witness :
    (⟨1, [0], [FCaller.idle, FCaller.idle]⟩ : FlattenConc).advanced =
      (List.range (⟨1, [0], [FCaller.idle, FCaller.idle]⟩ : FlattenConc).gen).reverse ∧
    (⟨1, [0], [FCaller.idle, FCaller.idle]⟩ : FlattenConc).advanced.Nodup ∧
    (⟨1, [0], [FCaller.idle, FCaller.idle]⟩ : FlattenConc).advanced.length =
      (⟨1, [0], [FCaller.idle, FCaller.idle]⟩ : FlattenConc).gen := by
  have h0 : FReachable 2 ⟨0, [], [FCaller.idle, FCaller.idle]⟩ := FReachable.init
  have h1 : FReachable 2 ⟨0, [], [FCaller.captured 0, FCaller.idle]⟩ :=
    FReachable.step _ _ h0 (FStep.capture _ 0 rfl)
  have h2 : FReachable 2 ⟨0, [], [FCaller.captured 0, FCaller.captured 0]⟩ :=
    FReachable.step _ _ h1 (FStep.capture _ 1 rfl)
  have h3 : FReachable 2 ⟨0, [], [FCaller.sawTerminal 0, FCaller.captured 0]⟩ :=
    FReachable.step _ _ h2 (FStep.gotTerminal _ 0 0 rfl)
  have h4 : FReachable 2 ⟨0, [], [FCaller.sawTerminal 0, FCaller.sawTerminal 0]⟩ :=
    FReachable.step _ _ h3 (FStep.gotTerminal _ 1 0 rfl)
  have h5 : FReachable 2 ⟨1, [0], [FCaller.idle, FCaller.sawTerminal 0]⟩ :=
    FReachable.step _ _ h4 (FStep.advanceHit _ 0 0 rfl rfl)
  have h6 : FReachable 2 ⟨1, [0], [FCaller.idle, FCaller.idle]⟩ :=
    FReachable.step _ _ h5 (FStep.advanceMiss _ 1 0 rfl (by decide))
  exact c8_advance_once_per_generation 2 ⟨1, [0], [FCaller.idle, FCaller.idle]⟩ h6

end Promistreamus
